import Mathlib

/-!
Verification of the ownership-semantics model of the Smart_Pointers_Cpp
repository: shared ownership with reference counting, weak observation,
exclusive ownership transfer, and the RAII file-handling wrapper
(`FileHandler` in `src/main.cpp`).

The shared/exclusive/weak ownership primitives are used in the source via
the C++ standard smart pointers; their internals are not part of the
repository, so they are modelled from the specification's contracts
(Shared Owner, Exclusive Owner, Weak Observer).  The `FileHandler` class
is in the source and is embedded directly, together with a faithful model
of the `std::fstream` stream state it relies on (open flag, buffer,
position, eofbit, failbit).
-/

namespace SmartPointers

/-- Modelled from the spec: the control structure shared by all Shared
Owners of one Owned Value — a strong reference count, a liveness flag for
the Owned Value, and a counter of how many times the value has been
destroyed (to state "destroyed exactly once"). -/
structure CtrlBlock where
  strong : Nat
  alive : Bool
  destroyCount : Nat
deriving DecidableEq, Repr

/-- Modelled from the spec: `create()` allocates the Owned Value and a
reference count initialized to 1. -/
def newBlock : CtrlBlock := ⟨1, true, 0⟩

/-- Operations of a Shared Owner family: `copy` constructs a new Shared
Owner from a live one, `reset` releases one live Shared Owner. -/
inductive SOp where
  | copy
  | reset
deriving DecidableEq, Repr

/-- Modelled from the spec: `copy` increments the count; `reset`
decrements it and, when the count transitions from 1 to 0, destroys the
Owned Value (recorded by `destroyCount`). -/
def spStep : CtrlBlock → SOp → CtrlBlock
  | b, .copy => { b with strong := b.strong + 1 }
  | b, .reset =>
      if b.strong = 1 then ⟨0, false, b.destroyCount + 1⟩
      else { b with strong := b.strong - 1 }

/-- Run a sequence of copy/reset operations on a control block. -/
def spRun : CtrlBlock → List SOp → CtrlBlock
  | b, [] => b
  | b, op :: ops => spRun (spStep b op) ops

/-- A sequence is valid when every operation is applied while at least one
Shared Owner is live (one cannot copy from, or reset, a dead family). -/
def spValidB : CtrlBlock → List SOp → Bool
  | _, [] => true
  | b, op :: ops => (decide (0 < b.strong)) && spValidB (spStep b op) ops

/-- Number of `copy` operations in a sequence. -/
def countCopies : List SOp → Nat
  | [] => 0
  | .copy :: ops => countCopies ops + 1
  | .reset :: ops => countCopies ops

/-- Number of `reset` operations in a sequence. -/
def countResets : List SOp → Nat
  | [] => 0
  | .copy :: ops => countResets ops
  | .reset :: ops => countResets ops + 1

theorem spStep_reset_strong (b : CtrlBlock) : (spStep b .reset).strong = b.strong - 1 := by
  obtain ⟨s, a, d⟩ := b
  simp only [spStep]
  split_ifs with h1 <;> simp_all

theorem spRun_append (b : CtrlBlock) (l r : List SOp) :
    spRun b (l ++ r) = spRun (spRun b l) r := by
  induction l generalizing b with
  | nil => rfl
  | cons op ops ih => simpa [spRun] using ih (spStep b op)

theorem spValidB_append (b : CtrlBlock) (l r : List SOp)
    (h : spValidB b (l ++ r) = true) : spValidB b l = true := by
  induction l generalizing b with
  | nil => rfl
  | cons op ops ih =>
    simp only [List.cons_append, spValidB, Bool.and_eq_true] at h ⊢
    exact ⟨h.1, ih (spStep b op) h.2⟩

theorem spRun_count (b : CtrlBlock) (ops : List SOp)
    (h : spValidB b ops = true) :
    (spRun b ops).strong + countResets ops = b.strong + countCopies ops := by
  induction ops generalizing b with
  | nil => simp [spRun, countCopies, countResets]
  | cons op rest ih =>
    simp only [spValidB, Bool.and_eq_true, decide_eq_true_eq] at h
    have hrec := ih (spStep b op) h.2
    cases op with
    | copy =>
      simp only [spRun, countCopies, countResets]
      have : (spStep b .copy).strong = b.strong + 1 := rfl
      omega
    | reset =>
      simp only [spRun, countCopies, countResets]
      have hs := spStep_reset_strong b
      have hb := h.1
      omega

/-- The single-destruction invariant: the Owned Value has been destroyed
exactly once if the count is zero, and never while the count is positive. -/
def destroyInv (b : CtrlBlock) : Prop :=
  b.destroyCount = if b.strong = 0 then 1 else 0

theorem spStep_destroyInv (b : CtrlBlock) (op : SOp)
    (hb : 0 < b.strong) (h : destroyInv b) : destroyInv (spStep b op) := by
  obtain ⟨s, a, d⟩ := b
  simp only [destroyInv] at h
  simp only at hb h
  have hd : d = 0 := by
    rw [h, if_neg (by omega)]
  cases op with
  | copy =>
    simp only [destroyInv, spStep]
    rw [if_neg (by omega)]
    exact hd
  | reset =>
    by_cases hs : s = 1
    · simp only [destroyInv, spStep, if_pos hs]
      simp [hd]
    · simp only [destroyInv, spStep, if_neg hs]
      rw [if_neg (by omega)]
      exact hd

theorem spRun_destroyInv (b : CtrlBlock) (ops : List SOp)
    (hv : spValidB b ops = true) (h : destroyInv b) : destroyInv (spRun b ops) := by
  induction ops generalizing b with
  | nil => exact h
  | cons op rest ih =>
    simp only [spValidB, Bool.and_eq_true, decide_eq_true_eq] at hv
    exact ih (spStep b op) hv.2 (spStep_destroyInv b op hv.1 h)

/-- C1: for a Shared Owner family created from one `create()` call, after
any valid sequence of k copies and m resets, `referenceCount()` equals
`1 + k - m`, and along every prefix of the sequence the Owned Value has
been destroyed exactly once if the count is zero and never while the count
is positive — so destruction happens exactly once, at the 1→0 transition. -/
theorem sharedOwner_refcount_and_single_destroy (ops : List SOp)
    (h : spValidB newBlock ops = true) :
    (spRun newBlock ops).strong = 1 + countCopies ops - countResets ops ∧
    ∀ p t, ops = p ++ t →
      (spRun newBlock p).destroyCount = if (spRun newBlock p).strong = 0 then 1 else 0 := by
  constructor
  · have := spRun_count newBlock ops h
    have hb : newBlock.strong = 1 := rfl
    omega
  · intro p t hpt
    have hvp : spValidB newBlock p = true := spValidB_append newBlock p t (hpt ▸ h)
    have hinv : destroyInv newBlock := by
      unfold destroyInv newBlock
      simp
    exact spRun_destroyInv newBlock p hvp hinv

theorem sharedOwner_refcount_and_single_destroy_witness :
    (spRun newBlock [SOp.copy, SOp.copy, SOp.reset, SOp.reset, SOp.reset]).strong
      = 1 + 2 - 3 ∧
    (spRun newBlock [SOp.copy, SOp.copy, SOp.reset, SOp.reset, SOp.reset]).destroyCount = 1 := by
  have h := sharedOwner_refcount_and_single_destroy
    [SOp.copy, SOp.copy, SOp.reset, SOp.reset, SOp.reset] (by decide)
  refine ⟨by simpa [countCopies, countResets] using h.1, ?_⟩
  have h2 := h.2 [SOp.copy, SOp.copy, SOp.reset, SOp.reset, SOp.reset] [] (by simp)
  simpa using h2

/-! ### A heap of control blocks: several Shared Owner families at once.
A Shared Owner is `some b` for a block index `b` (or `none` when empty);
a Weak Observer is a bare block index, since it references the control
block without contributing to the count. -/

/-- A heap of control blocks, indexed by allocation order. -/
abbrev Heap := List CtrlBlock

/-- Read the control block at index `b` (a dead dummy when out of range). -/
def getBlk (h : Heap) (b : Nat) : CtrlBlock := (h.get? b).getD ⟨0, false, 0⟩

/-- Modelled from the spec: `create(value)` allocates a fresh Owned Value
with a control block whose count is 1, returning the new Shared Owner. -/
def createShared (h : Heap) : Heap × Nat := (h ++ [newBlock], h.length)

/-- Increment the strong count of block `b` (what `copy` and a successful
`lock` do to the control block). -/
def incr (h : Heap) (b : Nat) : Heap :=
  h.set b { getBlk h b with strong := (getBlk h b).strong + 1 }

/-- Modelled from the spec: `copy(other)` constructs a new Shared Owner
referencing the same control block, incrementing the count. -/
def copyShared (h : Heap) (b : Nat) : Heap × Nat := (incr h b, b)

/-- Release one strong reference to block `b`: decrement, and destroy the
Owned Value when the count transitions from 1 to 0 (this is `spStep`'s
reset action applied inside the heap). -/
def releaseBlk (h : Heap) (b : Nat) : Heap := h.set b (spStep (getBlk h b) SOp.reset)

/-- Modelled from the spec: `reset()` empties the owner, decrementing the
count and destroying the Owned Value if the count reaches zero. -/
def resetShared (h : Heap) (o : Option Nat) : Heap × Option Nat :=
  match o with
  | none => (h, none)
  | some b => (releaseBlk h b, none)

/-- Modelled from the spec: `lock()` on a Weak Observer produces a Shared
Owner if the strong count is still positive (incrementing it), and the
absent result if the count has already reached zero. -/
def lock (h : Heap) (w : Nat) : Option (Heap × Nat) :=
  if 0 < (getBlk h w).strong then some (incr h w, w) else none

/-- Modelled from the spec: assignment of one Shared Owner over another
first releases the destination's prior reference, then adopts the
source's reference by incrementing its family's count. -/
def assignShared (h : Heap) (dst src : Option Nat) : Heap × Option Nat :=
  let h1 := match dst with | none => h | some d => releaseBlk h d
  match src with
  | none => (h1, none)
  | some s => (incr h1 s, some s)

theorem get?_set_self (l : List α) (i : Nat) (x : α) (hi : i < l.length) :
    (l.set i x).get? i = some x := by
  induction l generalizing i with
  | nil => simp at hi
  | cons a t ih =>
    cases i with
    | zero => rfl
    | succ j => exact ih j (by simpa using hi)

theorem get?_set_ne (l : List α) (i j : Nat) (x : α) (hij : i ≠ j) :
    (l.set i x).get? j = l.get? j := by
  induction l generalizing i j with
  | nil => simp
  | cons a t ih =>
    cases i with
    | zero =>
      cases j with
      | zero => exact absurd rfl hij
      | succ k => rfl
    | succ m =>
      cases j with
      | zero => rfl
      | succ k => exact ih m k (by omega)

theorem getBlk_set_self (h : Heap) (b : Nat) (x : CtrlBlock) (hb : b < h.length) :
    getBlk (h.set b x) b = x := by
  simp only [getBlk]
  rw [get?_set_self h b x hb]
  rfl

theorem getBlk_set_ne (h : Heap) (b c : Nat) (x : CtrlBlock) (hbc : b ≠ c) :
    getBlk (h.set b x) c = getBlk h c := by
  simp only [getBlk]
  rw [get?_set_ne h b c x hbc]

theorem getBlk_incr_self (h : Heap) (b : Nat) (hb : b < h.length) :
    (getBlk (incr h b) b).strong = (getBlk h b).strong + 1 := by
  rw [incr, getBlk_set_self h b _ hb]

/-- C2: `lock()` on a Weak Observer of block `w` returns a valid Shared
Owner and increments the count when the strong count is positive at call
time, and returns the absent result when the count has already reached
zero. -/
theorem weakObserver_lock (h : Heap) (w : Nat) (hw : w < h.length) :
    (0 < (getBlk h w).strong →
      lock h w = some (incr h w, w) ∧
      (getBlk (incr h w) w).strong = (getBlk h w).strong + 1) ∧
    ((getBlk h w).strong = 0 → lock h w = none) := by
  constructor
  · intro hpos
    exact ⟨by rw [lock, if_pos hpos], getBlk_incr_self h w hw⟩
  · intro hzero
    rw [lock, if_neg (by omega)]

/-- C2 witness: the spec's test — create a shared owner, derive a weak
observer, reset the (sole) shared owner; the count is zero and `lock()`
returns absent. -/
theorem weakObserver_lock_witness :
    (getBlk (resetShared (createShared []).1 (some (createShared []).2)).1
      (createShared []).2).strong = 0 ∧
    lock (resetShared (createShared []).1 (some (createShared []).2)).1
      (createShared []).2 = none := by
  have h := weakObserver_lock
    (resetShared (createShared []).1 (some (createShared []).2)).1
    (createShared []).2 (by decide)
  exact ⟨by decide, h.2 (by decide)⟩

/-! ### C3: the Post/Comment cycle-avoidance scenario.
A Post `P` is created; Comments `C1`, `C2`, `C3` are created; the Post
stores a Shared Owner copy of each Comment in its collection, and each
Comment holds a Weak Observer back to `P` (the same block index `p`, with
no count contribution).  Then the sole Shared Owner to `P` is dropped. -/

/-- Heap after creating the Post and the three Comments. -/
def c3HeapCreated : Heap :=
  (createShared (createShared (createShared (createShared []).1).1).1).1

/-- Block index of the Post. -/
def c3Post : Nat := 0

/-- Heap after the Post's collection adopts Shared Owner copies of the
three Comments (blocks 1, 2, 3). -/
def c3HeapLinked : Heap :=
  (copyShared (copyShared (copyShared c3HeapCreated 1).1 2).1 3).1

/-- Heap after the sole external Shared Owner to the Post is dropped. -/
def c3HeapDropped : Heap := (resetShared c3HeapLinked (some c3Post)).1

/-- C3: in the Post/Comment pattern, after dropping all Shared Owners to
the Post while the three Comments (with their Weak Observers to the Post)
still exist, the Post is destroyed exactly once, every Comment's `lock()`
on its Post observer returns the absent result (no step throws: each
operation in the sequence was applied to a live owner, and `lock` yields
the explicit absent value, not a failure), and the Comments themselves
still exist (their Owned Values are alive). -/
theorem postComment_cycleAvoidance :
    (getBlk c3HeapDropped c3Post).strong = 0 ∧
    (getBlk c3HeapDropped c3Post).alive = false ∧
    (getBlk c3HeapDropped c3Post).destroyCount = 1 ∧
    lock c3HeapDropped c3Post = none ∧
    (getBlk c3HeapDropped 1).alive = true ∧
    (getBlk c3HeapDropped 2).alive = true ∧
    (getBlk c3HeapDropped 3).alive = true ∧
    (getBlk c3HeapLinked c3Post).strong = 1 := by
  decide

/-- C7: assigning Shared Owner `src` (family `s`) over Shared Owner `dst`
(family `d`, a different family) first releases the destination's prior
reference — its family's count drops by one, and its Owned Value is
destroyed exactly when that count reaches zero — then adopts the source's
reference, incrementing the source family's count; afterwards the
destination refers to the source's block. -/
theorem sharedOwner_assignment (h : Heap) (d s : Nat)
    (hd : d < h.length) (hs : s < h.length) (hne : d ≠ s)
    (hds : 0 < (getBlk h d).strong) (hss : 0 < (getBlk h s).strong) :
    (assignShared h (some d) (some s)).2 = some s ∧
    (getBlk (assignShared h (some d) (some s)).1 s).strong = (getBlk h s).strong + 1 ∧
    (getBlk (assignShared h (some d) (some s)).1 d).strong = (getBlk h d).strong - 1 ∧
    ((getBlk h d).strong = 1 →
      (getBlk (assignShared h (some d) (some s)).1 d).alive = false ∧
      (getBlk (assignShared h (some d) (some s)).1 d).destroyCount
        = (getBlk h d).destroyCount + 1) ∧
    (1 < (getBlk h d).strong →
      (getBlk (assignShared h (some d) (some s)).1 d).alive = (getBlk h d).alive ∧
      (getBlk (assignShared h (some d) (some s)).1 d).destroyCount
        = (getBlk h d).destroyCount) := by
  have hlen : (releaseBlk h d).length = h.length := by
    simp [releaseBlk]
  have hheap : (assignShared h (some d) (some s)).1 = incr (releaseBlk h d) s := rfl
  have hsblk : getBlk (releaseBlk h d) s = getBlk h s :=
    getBlk_set_ne h d s _ hne
  have hdblk : getBlk (releaseBlk h d) d = spStep (getBlk h d) SOp.reset :=
    getBlk_set_self h d _ hd
  have hdfinal : getBlk (assignShared h (some d) (some s)).1 d
      = spStep (getBlk h d) SOp.reset := by
    rw [hheap, incr, getBlk_set_ne _ s d _ (Ne.symm hne), hdblk]
  refine ⟨rfl, ?_, ?_, ?_, ?_⟩
  · rw [hheap, getBlk_incr_self (releaseBlk h d) s (by omega), hsblk]
  · rw [hdfinal, spStep_reset_strong]
  · intro h1
    rw [hdfinal]
    simp [spStep, h1]
  · intro h1
    rw [hdfinal]
    simp only [spStep]
    rw [if_neg (by omega)]
    exact ⟨rfl, rfl⟩

/-- C7 witness: two singleton families; after assignment the destination's
family is destroyed (count 0) and the source's count is 2, with the
destination handle now referring to the source's block. -/
theorem sharedOwner_assignment_witness :
    (assignShared [newBlock, newBlock] (some 0) (some 1)).2 = some 1 ∧
    (getBlk (assignShared [newBlock, newBlock] (some 0) (some 1)).1 1).strong = 2 ∧
    (getBlk (assignShared [newBlock, newBlock] (some 0) (some 1)).1 0).strong = 0 ∧
    (getBlk (assignShared [newBlock, newBlock] (some 0) (some 1)).1 0).alive = false ∧
    (getBlk (assignShared [newBlock, newBlock] (some 0) (some 1)).1 0).destroyCount = 1 := by
  have h := sharedOwner_assignment [newBlock, newBlock] 0 1
    (by decide) (by decide) (by decide) (by decide) (by decide)
  refine ⟨h.1, by decide, by decide, ?_, ?_⟩
  · exact (h.2.2.2.1 (by decide)).1
  · exact (h.2.2.2.1 (by decide)).2

/-! ### Exclusive Owner: a heap of values with at most one owner handle. -/

/-- Errors signalled by the ownership primitives. -/
inductive OwnerError where
  | emptyDereference
deriving DecidableEq, Repr

/-- An Exclusive Owner: empty, or the address of its Owned Value. -/
abbrev ExOwner := Option Nat

/-- Modelled from the spec: `create(value)` heap-allocates the value and
returns an Exclusive Owner of the fresh address. -/
def mkUnique (h : List α) (v : α) : List α × ExOwner := (h ++ [v], some h.length)

/-- Modelled from the spec: `transferTo(other)` moves the reference —
`other` becomes the sole owner of the same address, `self` becomes empty;
the Owned Value itself is not touched (no copy, no allocation). -/
def transferTo (self other : ExOwner) : ExOwner × ExOwner := (none, self)

/-- Modelled from the spec: `dereference()` on an Exclusive Owner returns
the Owned Value, and signals `EmptyDereferenceError` when the owner holds
no value. -/
def derefEx (h : List α) (o : ExOwner) : Except OwnerError α :=
  match o with
  | none => .error .emptyDereference
  | some a =>
    match h.get? a with
    | none => .error .emptyDereference
    | some v => .ok v

/-- Modelled from the spec: `dereference()` on a Shared Owner (with `vals`
the values alongside the control-block heap) returns the Owned Value while
it is alive, and signals `EmptyDereferenceError` when the owner is empty. -/
def derefShared (h : Heap) (vals : List α) (o : Option Nat) : Except OwnerError α :=
  match o with
  | none => .error .emptyDereference
  | some b =>
    if (getBlk h b).alive then
      match vals.get? b with
      | none => .error .emptyDereference
      | some v => .ok v
    else .error .emptyDereference

theorem get?_concat_self (h : List α) (v : α) : (h ++ [v]).get? h.length = some v := by
  induction h with
  | nil => rfl
  | cons a t ih => simpa using ih

/-- C6: after `transferTo(other)` on an Exclusive Owner freshly created
over value `v`, the source is empty, the destination dereferences to the
original value, and the destination holds the very same address as the
source did (identity equality), with the value heap untouched by the
transfer — the Owned Value is never copied or re-allocated. -/
theorem exclusiveOwner_transfer (h0 : List α) (v : α) (other : ExOwner) :
    (transferTo (mkUnique h0 v).2 other).1 = none ∧
    (transferTo (mkUnique h0 v).2 other).2 = (mkUnique h0 v).2 ∧
    (transferTo (mkUnique h0 v).2 other).2 = some h0.length ∧
    derefEx (mkUnique h0 v).1 (transferTo (mkUnique h0 v).2 other).2 = .ok v := by
  refine ⟨rfl, rfl, rfl, ?_⟩
  show derefEx (h0 ++ [v]) (some h0.length) = .ok v
  simp only [derefEx]
  rw [get?_concat_self]

/-- C8: `dereference()` on an Exclusive Owner or a Shared Owner holding no
value signals `EmptyDereferenceError` and never returns a value. -/
theorem emptyDereference_signals_error (h : Heap) (hx : List α) (vals : List β) :
    derefEx hx (none : ExOwner) = .error OwnerError.emptyDereference ∧
    derefShared h vals (none : Option Nat) = .error OwnerError.emptyDereference := by
  exact ⟨rfl, rfl⟩

/-! ### FileHandler (src/main.cpp): RAII wrapper over a std::fstream.
The stream state models std::fstream: open flag, file contents, the
single shared read/write position of the underlying filebuf, eofbit and
failbit, with the standard sentry/seek semantics. -/

/-- The state of a std::fstream. -/
structure FStream where
  isOpen : Bool
  buf : List Char
  pos : Nat
  eofbit : Bool
  failbit : Bool
deriving DecidableEq, Repr

/-- A std::fstream constructed on a filename: on success the stream is
open on the file's contents at position 0; on failure it is not open and
failbit is set. -/
def openFStream (r : Option (List Char)) : FStream :=
  match r with
  | none => ⟨false, [], 0, false, true⟩
  | some c => ⟨true, c, 0, false, false⟩

/-- The stream's boolean test (`!fileStream`): true when failbit is set. -/
def streamFailed (s : FStream) : Bool := s.failbit

/-- `FileHandler::FileHandler` (src/main.cpp): open `filename` through the
filesystem `fs`; if the stream tests false, throw
`"Failed to open file: " ++ filename` (modelled as `Except.error`), so no
handler object is produced on failure. -/
def mkFileHandler (fs : String → Option (List Char)) (filename : String) :
    Except String FStream :=
  let s := openFStream (fs filename)
  if streamFailed s then .error ("Failed to open file: " ++ filename)
  else .ok s

/-- Formatted output `fileStream << data`: writes at the current position
(extending the buffer past its end) when the stream is good; the output
sentry makes it a no-op when a state flag is set. -/
def fstreamWrite (s : FStream) (data : List Char) : FStream :=
  if s.failbit || s.eofbit then s
  else { s with
          buf := s.buf.take s.pos ++ data ++ s.buf.drop (s.pos + data.length),
          pos := s.pos + data.length }

/-- `FileHandler::writeData` (src/main.cpp): `if (fileStream.is_open())
fileStream << data;` — writes only when the stream is open. -/
def writeData (s : FStream) (data : List Char) : FStream :=
  if s.isOpen then fstreamWrite s data else s

/-- `std::getline` on the stream: the input sentry fails (setting failbit)
when a state flag is already set; extracting no character at end of data
sets eofbit and failbit; otherwise it extracts up to the next newline
(consumed, not stored) or to the end of the buffer (setting eofbit). -/
def getlineF (s : FStream) : Option (List Char) × FStream :=
  if s.failbit || s.eofbit then (none, { s with failbit := true })
  else if s.buf.length ≤ s.pos then
    (none, { s with eofbit := true, failbit := true })
  else
    let rest := s.buf.drop s.pos
    let line := rest.takeWhile (fun c => c != '\n')
    if line.length = rest.length then
      (some line, { s with pos := s.buf.length, eofbit := true })
    else
      (some line, { s with pos := s.pos + line.length + 1 })

/-- `fileStream.seekg(0)`: clears eofbit, then resets the position to the
beginning — but only when the stream has not failed; on failbit the seek
does nothing. -/
def seekg0 (s : FStream) : FStream :=
  if s.failbit then { s with eofbit := false }
  else { s with eofbit := false, pos := 0 }

/-- The `while (std::getline(fileStream, line)) content += line + '\n';`
loop of `FileHandler::readData`, with fuel for termination. -/
def readLoop : Nat → FStream → List Char → List Char × FStream
  | 0, s, acc => (acc, s)
  | fuel + 1, s, acc =>
    match getlineF s with
    | (none, s1) => (acc, s1)
    | (some line, s1) => readLoop fuel s1 (acc ++ line ++ [Char.ofNat 10])

/-- `FileHandler::readData` (src/main.cpp): `seekg(0)`, then accumulate
the lines, each with a newline appended.  The fuel exceeds the largest
possible number of successful line reads. -/
def readData (s : FStream) : List Char × FStream :=
  readLoop (s.buf.length + 1) (seekg0 s) []

/-- C4: for every resource name whose underlying open fails, constructing
the FileHandler signals the acquisition error (propagated to the caller,
so no partially-constructed handler escapes), and the underlying resource
is not open after the failure. -/
theorem fileHandler_acquisitionError (fs : String → Option (List Char))
    (name : String) (h : fs name = none) :
    mkFileHandler fs name = .error ("Failed to open file: " ++ name) ∧
    (openFStream (fs name)).isOpen = false := by
  constructor
  · simp [mkFileHandler, streamFailed, openFStream, h]
  · rw [h]
    rfl

/-- C4 witness: on a filesystem with no files, acquiring any name fails
with the acquisition error and leaves nothing open. -/
theorem fileHandler_acquisitionError_witness :
    mkFileHandler (fun _ => none) "missing.txt"
      = .error ("Failed to open file: " ++ "missing.txt") ∧
    (openFStream ((fun (_ : String) => none) "missing.txt")).isOpen = false :=
  fileHandler_acquisitionError (fun _ => none) "missing.txt" rfl

/-- C9: on a FileHandler whose stream is not open, `writeData` is a silent
no-op — it returns normally with the state unchanged and signals nothing. -/
theorem writeData_noop_when_closed (s : FStream) (data : List Char)
    (h : s.isOpen = false) : writeData s data = s := by
  simp [writeData, h]

/-- C9 witness: writing through a handler whose open failed changes
nothing. -/
theorem writeData_noop_when_closed_witness :
    writeData (openFStream none) [Char.ofNat 65] = openFStream none :=
  writeData_noop_when_closed (openFStream none) [Char.ofNat 65] rfl

/-- The fresh stream of the C5 scenario (a successfully acquired, empty
resource). -/
def c5Fresh : FStream := openFStream (some [])

/-- The C5 scenario stream after `write("A")` then `write("B")`. -/
def c5AfterWrites : FStream := writeData (writeData c5Fresh ['A']) ['B']

/-- C5 counterexample: after writing "A" then "B", `readData` returns
"AB\n" — the concatenation plus a newline appended by the read loop — and
not the claimed "AB". -/
theorem write_write_read_ne_AB :
    (readData c5AfterWrites).1 = ['A', 'B', Char.ofNat 10] ∧
    (readData c5AfterWrites).1 ≠ ['A', 'B'] := by
  decide

/-- C5 amended: after `write("A")` then `write("B")`, `read()` returns
"AB\n": the two payloads concatenated in write order, followed by the
newline that `readData` appends to each line it reads. -/
theorem write_write_read_AB_newline :
    (readData c5AfterWrites).1 = ['A', 'B', Char.ofNat 10] := by
  decide

theorem getlineF_cases (s : FStream) :
    (∃ s1, getlineF s = (none, s1) ∧ s1.failbit = true) ∨
    (∃ line s1, getlineF s = (some line, s1) ∧ s1.buf = s.buf ∧
      s.buf.length - s1.pos < s.buf.length - s.pos) := by
  simp only [getlineF]
  split_ifs with h1 h2 h3
  · exact Or.inl ⟨_, rfl, rfl⟩
  · exact Or.inl ⟨_, rfl, rfl⟩
  · refine Or.inr ⟨_, _, rfl, rfl, ?_⟩
    simp only
    omega
  · refine Or.inr ⟨_, _, rfl, rfl, ?_⟩
    simp only
    omega

theorem readLoop_failbit (fuel : Nat) :
    ∀ (s : FStream) (acc : List Char), s.buf.length - s.pos < fuel →
      ((readLoop fuel s acc).2).failbit = true := by
  induction fuel with
  | zero => exact fun s acc h => absurd h (Nat.not_lt_zero _)
  | succ fuel ih =>
    intro s acc h
    rcases getlineF_cases s with ⟨s1, heq, hfail⟩ | ⟨line, s1, heq, hbuf, hpos⟩
    · simp only [readLoop, heq]
      exact hfail
    · simp only [readLoop, heq]
      refine ih s1 _ ?_
      rw [hbuf]
      omega

theorem seekg0_buf (s : FStream) : (seekg0 s).buf = s.buf := by
  unfold seekg0
  split_ifs <;> rfl

/-- After any `readData`, the stream's failbit is set (the getline loop
only stops on a failed extraction). -/
theorem readData_failbit (s : FStream) : ((readData s).2).failbit = true := by
  unfold readData
  apply readLoop_failbit
  rw [seekg0_buf]
  omega

/-- On a stream whose failbit is set, `readData` returns the empty string:
`seekg(0)` is a no-op on a failed stream and the first `getline` fails. -/
theorem readData_of_failbit (s : FStream) (h : s.failbit = true) :
    (readData s).1 = [] := by
  unfold readData
  have h1 : seekg0 s = { s with eofbit := false } := by
    unfold seekg0
    rw [if_pos h]
  have h2 : getlineF { s with eofbit := false }
      = (none, { s with eofbit := false, failbit := true }) := by
    unfold getlineF
    rw [if_pos]
    simp [h]
  rw [h1]
  simp only [readLoop, h2]

/-- C10 amended: `readData` does issue the rewind, but the failure flag
set when a previous read exhausted the stream persists, making the rewind
and the subsequent extraction no-ops: a second consecutive `readData`
always returns the empty string, so two consecutive calls return equal
strings only when the first result is already empty. -/
theorem readData_second_returns_empty (s : FStream) :
    (readData (readData s).2).1 = [] ∧ ((readData s).2).failbit = true :=
  ⟨readData_of_failbit _ (readData_failbit s), readData_failbit s⟩

/-- C10 counterexample: on a handler over the contents "AB", the first
`readData` returns "AB\n" but an immediately repeated `readData` returns
"" — consecutive reads are not equal. -/
theorem readData_not_idempotent :
    (readData (openFStream (some ['A', 'B']))).1 = ['A', 'B', Char.ofNat 10] ∧
    (readData ((readData (openFStream (some ['A', 'B']))).2)).1 = [] ∧
    (readData (openFStream (some ['A', 'B']))).1 ≠
      (readData ((readData (openFStream (some ['A', 'B']))).2)).1 := by
  decide

end SmartPointers
